import Mathlib

/-!
Verification of the dove-eye marker-tracking engine and pipeline orchestration
layer against its natural-language specification.

The development shallowly embeds:
* `Application` (part_002: `AvailableVideoProviders`, `InitializeEmpty`,
  `Initialize`, `SetCalibrationData`) as a pure state machine; machine ints
  become `ℕ`/`ℤ`, emitted Qt signals become an explicit event list.
* `TemplateTracker` (part_000: `InitTrackerData`, `Search`) over images with
  `ℚ`-valued pixels; C++ `float`/`double` scalars become `ℚ` and the
  float→int conversions of `cv::Rect` construction become explicit
  truncation toward zero.  `cv::matchTemplate` is an external OpenCV call;
  it is modelled as an abstract score producer (`Matcher`) whose output map
  has the documented dimensions, and locality (a score depends only on the
  pixels of the window it scores) is captured by the `LocalMatcher`
  predicate where a claim needs it.
-/

namespace DoveEye

set_option maxRecDepth 8000

/-! ## Orchestration layer (part_002, `Application`) -/

/-- Per-camera calibration parameters plus the arity they were computed for
(`CalibrationData.Arity()`); `payload` stands for the remaining opaque
per-camera data so distinct instances are distinguishable. -/
structure CalibrationData where
  arity : ℕ
  payload : ℕ
  deriving DecidableEq, Repr

/-- The pipeline controller as far as the orchestration claims observe it:
its construction arity and the providers moved into it. -/
structure Controller where
  arity : ℕ
  providers : List ℕ
  deriving DecidableEq, Repr

/-- Qt signals emitted by `Application`, as an explicit event trace. -/
inductive AppEvent where
  | setupPipeline
  | calibrationDataReady (d : CalibrationData)
  deriving DecidableEq, Repr

/-- The `Application` object state: the fields of part_002 that the claims
are about.  Video providers are identified by their device index. -/
structure AppState where
  arity : ℕ
  available_providers : List ℕ
  controller : Option Controller
  converter : Option ℕ
  calibration_data : Option CalibrationData
  emitted : List AppEvent
  deriving DecidableEq, Repr

/-- `Application::InitializeEmpty` (part_002 lines 89-97): clears the
available-provider pool, resets arity, tears down converter and controller
and emits `SetupPipeline`.  Note: `calibration_data_` is left untouched,
exactly as in the source. -/
def AppState.InitializeEmpty (s : AppState) : AppState :=
  { s with
    available_providers := []
    arity := 0
    converter := none
    controller := none
    emitted := s.emitted ++ [AppEvent.setupPipeline] }

/-- The probing loop of `Application::AvailableVideoProviders` (part_002
lines 62-80).  `op d = true` means device `d` opens and yields at least one
frame.  `skip` and `tests` are the in-code bounds; `device`/`errors` are the
loop variables and `fuel` bounds the recursion (the initial call passes more
fuel than the loop can consume, so the `0` case is never reached).  The
error counter counts every failed probe and is never reset on success,
exactly as in the source. -/
def probeLoop (op : ℕ → Bool) (skip tests : ℕ) : ℕ → ℕ → ℕ → List ℕ
  | 0, _, _ => []
  | fuel + 1, device, errors =>
    if op device then
      device ::
        (if device + 1 ≥ tests then []
         else probeLoop op skip tests fuel (device + 1) errors)
    else
      if errors + 1 ≥ skip then []
      else if device + 1 ≥ tests then []
      else probeLoop op skip tests fuel (device + 1) (errors + 1)

/-- `Application::AvailableVideoProviders` (part_002 lines 54-87), device
list only: probes device ids from 0 with `skip = maxArity` and
`tests = 2 * maxArity` and returns the working devices in probe order. -/
def AvailableVideoProviders (op : ℕ → Bool) (maxArity : ℕ) : List ℕ :=
  probeLoop op maxArity (2 * maxArity) (2 * maxArity + 1) 0 0

/-- Release one chosen provider from the available pool
(`provider_owner.release()` guarded by `assert(released)`,
part_002 lines 108-120): `none` models the assertion failure when the
provider is not in the pool. -/
def releaseFrom (pool : List ℕ) (p : ℕ) : Option (List ℕ) :=
  if p ∈ pool then some (pool.erase p) else none

/-- Release every chosen provider in order, threading the shrinking pool. -/
def releaseAll (pool : List ℕ) : List ℕ → Option (List ℕ)
  | [] => some pool
  | c :: cs => (releaseFrom pool c).bind fun pool2 => releaseAll pool2 cs

/-- `Application::Initialize` (part_002 lines 99-134): move the chosen
providers out of the pool (assertion failure, modelled as `none`, if one is
not present), dispose the rest (`available_providers_.clear()`), set arity,
build controller and converter, and emit `SetupPipeline`.
`SetupController` asserts a nonempty provider set (line 172), hence the
empty-choice guard.  As in the source, `calibration_data_` is not touched. -/
def AppState.Initialize (s : AppState) (chosen : List ℕ) : Option AppState :=
  if chosen.isEmpty then none
  else
    (releaseAll s.available_providers chosen).map fun _ =>
      { s with
        available_providers := []
        arity := chosen.length
        controller := some ⟨chosen.length, chosen⟩
        converter := some chosen.length
        emitted := s.emitted ++ [AppEvent.setupPipeline] }

/-- `Application::SetCalibrationData` (part_002 lines 136-149):
`assert(controller_)` and `assert(controller_->Arity() == data.Arity())`
(modelled as `none`), then store the data as the canonical copy and emit
`CalibrationDataReady` (the rebroadcast to the controller and all other
observers connected to that signal). -/
def AppState.SetCalibrationData (s : AppState) (d : CalibrationData) :
    Option AppState :=
  match s.controller with
  | none => none
  | some c =>
    if c.arity = d.arity then
      some { s with
             calibration_data := some d
             emitted := s.emitted ++ [AppEvent.calibrationDataReady d] }
    else none

/-- Number of failing probes among devices `0, …, n-1`. -/
def failCount (op : ℕ → Bool) (n : ℕ) : ℕ :=
  ((List.range n).filter fun d => !op d).length

lemma failCount_zero (op : ℕ → Bool) : failCount op 0 = 0 := rfl

lemma failCount_succ (op : ℕ → Bool) (n : ℕ) :
    failCount op (n + 1) = failCount op n + (if op n then 0 else 1) := by
  simp only [failCount, List.range_succ, List.filter_append, List.length_append]
  cases h : op n <;> simp [h]

/-- Characterization of the probing loop: starting at `device` with the
invariant `errors = failCount op device`, the loop probes exactly the
contiguous range up to some final device `D`, keeps the working ones, and
stops either because the device budget `tests` is exhausted or because the
total error count has just reached `skip` at a failing device. -/
lemma probeLoop_spec (op : ℕ → Bool) (skip tests : ℕ) :
    ∀ fuel device errors, errors = failCount op device → device < tests →
      errors < skip → tests ≤ device + fuel →
      ∃ D, device ≤ D ∧ D < tests ∧
        probeLoop op skip tests fuel device errors =
          (List.range' device (D + 1 - device)).filter (fun d => op d) ∧
        failCount op (D + 1) ≤ skip ∧
        (D + 1 = tests ∨ (op D = false ∧ failCount op (D + 1) = skip)) := by
  intro fuel
  induction fuel with
  | zero => intro device errors _ h1 _ h3; omega
  | succ fuel ih =>
    intro device errors herr hdev hskip hfuel
    by_cases hop : op device
    · by_cases hlast : device + 1 ≥ tests
      · refine ⟨device, le_refl _, hdev, ?_, ?_, ?_⟩
        · have h1 : device + 1 - device = 1 := by omega
          rw [probeLoop, if_pos hop, if_pos hlast, h1]
          simp [List.range', hop]
        · rw [failCount_succ, if_pos hop]; omega
        · left; omega
      · push_neg at hlast
        obtain ⟨D, hD1, hD2, hD3, hD4, hD5⟩ :=
          ih (device + 1) errors
            (by rw [failCount_succ, if_pos hop]; omega) hlast hskip (by omega)
        refine ⟨D, by omega, hD2, ?_, hD4, hD5⟩
        rw [probeLoop, if_pos hop, if_neg (by omega : ¬ device + 1 ≥ tests), hD3]
        have h1 : D + 1 - device = (D + 1 - (device + 1)) + 1 := by omega
        rw [h1, List.range'_succ, List.filter_cons, if_pos (by simp [hop])]
    · by_cases hstop : errors + 1 ≥ skip
      · refine ⟨device, le_refl _, hdev, ?_, ?_, ?_⟩
        · have h1 : device + 1 - device = 1 := by omega
          rw [probeLoop, if_neg hop, if_pos hstop, h1]
          simp [List.range', hop]
        · rw [failCount_succ, if_neg hop]; omega
        · right
          refine ⟨by simp [hop], ?_⟩
          rw [failCount_succ, if_neg hop]; omega
      · by_cases hlast : device + 1 ≥ tests
        · refine ⟨device, le_refl _, hdev, ?_, ?_, ?_⟩
          · have h1 : device + 1 - device = 1 := by omega
            rw [probeLoop, if_neg hop, if_neg hstop, if_pos hlast, h1]
            simp [List.range', hop]
          · rw [failCount_succ, if_neg hop]; omega
          · left; omega
        · push_neg at hlast
          obtain ⟨D, hD1, hD2, hD3, hD4, hD5⟩ :=
            ih (device + 1) (errors + 1)
              (by rw [failCount_succ, if_neg hop]; omega) hlast (by omega) (by omega)
          refine ⟨D, by omega, hD2, ?_, hD4, hD5⟩
          rw [probeLoop, if_neg hop, if_neg hstop,
            if_neg (by omega : ¬ device + 1 ≥ tests), hD3]
          have h1 : D + 1 - device = (D + 1 - (device + 1)) + 1 := by omega
          rw [h1, List.range'_succ, List.filter_cons, if_neg (by simp [hop])]

/-- The stopping rule claimed by the spec, read with "at most `maxArity`
CONSECUTIVE open failures": discovery probes exactly devices `0, …, D`,
stopping either after `2 * maxArity` total attempts or because the last
`maxArity` probed devices all failed. -/
def ConsecutiveStopping (op : ℕ → Bool) (m : ℕ) (res : List ℕ) : Prop :=
  ∃ D ∈ Finset.range (2 * m),
    res = (List.range (D + 1)).filter (fun d => op d) ∧
    (D + 1 = 2 * m ∨
      (m ≤ D + 1 ∧ ∀ k ∈ Finset.Icc (D + 1 - m) D, op k = false))

/-- Claim C2 as stated: sequential probing halts after at most `maxArity`
consecutive failures or `2·maxArity` total attempts, whichever comes first,
and in the scenario where devices 0 and 1 open and 2–5 fail discovery
returns exactly sources 0 and 1. -/
def C2Statement : Prop :=
  (∀ (op : ℕ → Bool) (m : ℕ), 1 ≤ m →
    ConsecutiveStopping op m (AvailableVideoProviders op m)) ∧
  AvailableVideoProviders (fun d => decide (d < 2)) 4 = [0, 1]

/-- Claim C2 is false: with `maxArity = 4` and devices `1, 3, 5, 7` working
(every even device failing), the code stops after probing device 6 — its
error counter counts TOTAL failures, never reset on success — returning
`[1, 3, 5]`, although no run of 4 consecutive failures has occurred and
only 7 of the 8 allowed attempts were made. -/
theorem c2_counterexample : ¬ C2Statement := by
  intro h
  have h2 := h.1 (fun d => decide (d % 2 = 1)) 4 (by norm_num)
  unfold ConsecutiveStopping at h2
  revert h2
  decide

/-- Amended claim C2: discovery probes device indices sequentially from 0
and stops after at most `maxArity` TOTAL open failures (the error counter
is never reset by a success), or after `2 × maxArity` total probe attempts,
whichever comes first; the devices returned are exactly the working ones
among those probed.  With `maxArity = 4`, devices 0 and 1 open and devices
2–5 failing, discovery returns exactly sources 0 and 1. -/
theorem c2_amended_total_failures :
    ∀ (op : ℕ → Bool) (m : ℕ), 1 ≤ m →
      (∃ D, D < 2 * m ∧
        AvailableVideoProviders op m =
          (List.range (D + 1)).filter (fun d => op d) ∧
        failCount op (D + 1) ≤ m ∧
        (D + 1 = 2 * m ∨ (op D = false ∧ failCount op (D + 1) = m))) ∧
      AvailableVideoProviders (fun d => decide (d < 2)) 4 = [0, 1] := by
  intro op m hm
  refine ⟨?_, by decide⟩
  obtain ⟨D, h1, h2, h3, h4, h5⟩ :=
    probeLoop_spec op m (2 * m) (2 * m + 1) 0 0 (failCount_zero op).symm
      (by omega) (by omega) (by omega)
  refine ⟨D, h2, ?_, h4, h5⟩
  rw [AvailableVideoProviders, h3, List.range_eq_range', Nat.sub_zero]

/-- Concrete instance of the amended C2 theorem at the spec's end-to-end
scenario C. -/
theorem c2_amended_witness :
    AvailableVideoProviders (fun d => decide (d < 2)) 4 = [0, 1] :=
  (c2_amended_total_failures (fun d => decide (d < 2)) 4 (by norm_num)).2

/-- Claim C4 is wrong about the code: neither `InitializeEmpty` (teardown
to Idle) nor `Initialize` (assembly of a new pipeline) touches
`calibration_data_`, so the Application keeps its canonical calibration
copy across every topology change; evaluated concretely on a state holding
arity-2 calibration data. -/
theorem c4_calibration_retained :
    (∀ s : AppState, s.InitializeEmpty.calibration_data = s.calibration_data) ∧
    (∀ (s : AppState) (chosen : List ℕ),
      (s.Initialize chosen).elim True
        (fun s2 => s2.calibration_data = s.calibration_data)) ∧
    (AppState.InitializeEmpty
        ⟨2, [], some ⟨2, [0, 1]⟩, some 2, some ⟨2, 7⟩, []⟩).calibration_data
      = some ⟨2, 7⟩ := by
  refine ⟨fun s => rfl, fun s chosen => ?_, rfl⟩
  cases hc : chosen.isEmpty
  · cases hr : releaseAll s.available_providers chosen <;>
      simp [AppState.Initialize, hc, hr]
  · simp [AppState.Initialize, hc]

/-- Claim C9: applying calibration data with an arity different from the
live controller's arity fails the asserted invariant check; on a matching
arity the data is stored as the canonical copy and rebroadcast via the
`CalibrationDataReady` signal; and in end-to-end scenario D a pipeline
assembled from 2 sources (arity 2) rejects arity-3 calibration data. -/
theorem c9_calibration_arity :
    (∀ (s : AppState) (d : CalibrationData) (c : Controller),
        s.controller = some c → c.arity ≠ d.arity →
        s.SetCalibrationData d = none) ∧
    (∀ (s : AppState) (d : CalibrationData) (c : Controller),
        s.controller = some c → c.arity = d.arity →
        s.SetCalibrationData d =
          some { s with
                 calibration_data := some d
                 emitted := s.emitted ++ [AppEvent.calibrationDataReady d] }) ∧
    ((AppState.Initialize ⟨0, [8, 9], none, none, none, []⟩ [8, 9]).map
        AppState.arity = some 2 ∧
      (AppState.Initialize ⟨0, [8, 9], none, none, none, []⟩ [8, 9]).bind
        (fun s2 => s2.SetCalibrationData ⟨3, 99⟩) = none) := by
  refine ⟨?_, ?_, by decide⟩
  · intro s d c hc hne
    simp [AppState.SetCalibrationData, hc, hne]
  · intro s d c hc he
    simp [AppState.SetCalibrationData, hc, he]

/-- Concrete instance of C9: arity-3 data applied to an arity-2 pipeline
fails the assertion check. -/
theorem c9_witness :
    AppState.SetCalibrationData ⟨2, [], some ⟨2, [0, 1]⟩, some 2, none, []⟩
      ⟨3, 5⟩ = none :=
  c9_calibration_arity.1 _ _ ⟨2, [0, 1]⟩ rfl (by decide)

lemma releaseFrom_subset {pool pool2 : List ℕ} {p c : ℕ}
    (h : releaseFrom pool p = some pool2) (hc : c ∈ pool2) : c ∈ pool := by
  by_cases hp : p ∈ pool
  · rw [releaseFrom, if_pos hp, Option.some_inj] at h
    exact List.mem_of_mem_erase (h ▸ hc)
  · rw [releaseFrom, if_neg hp] at h
    exact absurd h (by simp)

lemma releaseAll_none {c : ℕ} :
    ∀ (chosen pool : List ℕ), c ∈ chosen → c ∉ pool →
      releaseAll pool chosen = none := by
  intro chosen
  induction chosen with
  | nil => intro pool h; simp at h
  | cons a as ih =>
    intro pool hmem hnot
    rcases List.mem_cons.mp hmem with rfl | htail
    · simp [releaseAll, releaseFrom, hnot]
    · cases hr : releaseFrom pool a
      · simp [releaseAll, hr]
      · simp only [releaseAll, hr, Option.some_bind]
        exact ih _ htail (fun hc2 => hnot (releaseFrom_subset hr hc2))

/-- Claim C10: after a successful pipeline assembly the available-source
pool is empty, the chosen sources were moved into the Controller (with
arity set to their count), choosing a source absent from the pool fails
the `assert(released)` check, and non-chosen sources are disposed (not kept
available), as in the concrete run assembling `[4]` from pool `[3,4,5]`. -/
theorem c10_assembly_pool :
    (∀ (s : AppState) (chosen : List ℕ) (s2 : AppState),
        s.Initialize chosen = some s2 →
        s2.available_providers = [] ∧ s2.arity = chosen.length ∧
        s2.controller = some ⟨chosen.length, chosen⟩ ∧
        s2.emitted = s.emitted ++ [AppEvent.setupPipeline]) ∧
    (∀ (s : AppState) (chosen : List ℕ) (c : ℕ),
        c ∈ chosen → c ∉ s.available_providers →
        s.Initialize chosen = none) ∧
    ((AppState.Initialize ⟨0, [3, 4, 5], none, none, none, []⟩ [4]).map
        AppState.available_providers = some []) := by
  refine ⟨?_, ?_, by decide⟩
  · intro s chosen s2 h
    cases hc : chosen.isEmpty
    · rw [AppState.Initialize, if_neg (by simp [hc])] at h
      cases hr : releaseAll s.available_providers chosen
      · rw [hr] at h; exact absurd h (by simp)
      · rw [hr, Option.map_some', Option.some_inj] at h
        subst h
        exact ⟨rfl, rfl, rfl, rfl⟩
    · rw [AppState.Initialize, if_pos (by simp [hc])] at h
      exact absurd h (by simp)
  · intro s chosen c hmem hnot
    cases hc : chosen.isEmpty
    · rw [AppState.Initialize, if_neg (by simp [hc]),
        releaseAll_none chosen s.available_providers hmem hnot]
      rfl
    · rw [AppState.Initialize, if_pos (by simp [hc])]

/-- Concrete instance of C10: assembling `[4, 5]` from pool `[3, 4, 5]`
leaves the pool empty with a controller of arity 2 owning `[4, 5]`, and
choosing the absent source `9` fails the assertion. -/
theorem c10_witness :
    (AppState.mk 2 [] (some ⟨2, [4, 5]⟩) (some 2) none
        [AppEvent.setupPipeline]).available_providers = [] ∧
    (AppState.mk 2 [] (some ⟨2, [4, 5]⟩) (some 2) none
        [AppEvent.setupPipeline]).controller = some ⟨2, [4, 5]⟩ ∧
    AppState.Initialize ⟨0, [3, 4, 5], none, none, none, []⟩ [9] = none := by
  refine ⟨?_, ?_, ?_⟩
  · exact (c10_assembly_pool.1 ⟨0, [3, 4, 5], none, none, none, []⟩ [4, 5] _
      (by decide)).1
  · exact (c10_assembly_pool.1 ⟨0, [3, 4, 5], none, none, none, []⟩ [4, 5] _
      (by decide)).2.2.1
  · exact c10_assembly_pool.2.1 ⟨0, [3, 4, 5], none, none, none, []⟩ [9] 9
      (by decide) (by decide)

/-! ## Tracking engine (part_000, `TemplateTracker`) -/

/-- C++ float→int conversion (used by `cv::Rect` construction from float
expressions): truncation toward zero of a rational. -/
def cppInt (q : ℚ) : ℤ := q.num.tdiv (q.den : ℤ)

/-- `cv::Rect` with integer coordinates. -/
structure IRect where
  x : ℤ
  y : ℤ
  width : ℤ
  height : ℤ
  deriving DecidableEq, Repr

/-- `cv::Rect::tl()`. -/
def IRect.tl (r : IRect) : ℤ × ℤ := (r.x, r.y)

/-- `cv::Rect::br()` (exclusive bottom-right corner). -/
def IRect.br (r : IRect) : ℤ × ℤ := (r.x + r.width, r.y + r.height)

/-- The `cv::Rect(Point pt1, Point pt2)` constructor, which normalizes the
two corners with min/max. -/
def rectOfPoints (p q : ℤ × ℤ) : IRect :=
  ⟨min p.1 q.1, min p.2 q.2,
   max p.1 q.1 - min p.1 q.1, max p.2 q.2 - min p.2 q.2⟩

/-- `cv::Rect` intersection (`operator &`): empty result collapses to the
zero rectangle. -/
def rectInter (a b : IRect) : IRect :=
  let x := max a.x b.x
  let y := max a.y b.y
  let w := min (a.x + a.width) (b.x + b.width) - x
  let h := min (a.y + a.height) (b.y + b.height) - y
  if w ≤ 0 ∨ h ≤ 0 then ⟨0, 0, 0, 0⟩ else ⟨x, y, w, h⟩

/-- A grayscale image: dimensions plus a total pixel function (reads
outside the bounds never occur on the executed paths). -/
structure QImage where
  cols : ℤ
  rows : ℤ
  pix : ℤ → ℤ → ℚ

/-- `data(roi)`: the sub-image view of `img` under rectangle `r`. -/
def subimage (img : QImage) (r : IRect) : QImage :=
  ⟨r.width, r.height, fun i j => img.pix (r.x + i) (r.y + j)⟩

/-- A circle `Mark`: center and radius (C++ `Point2`/`float`, hence `ℚ`). -/
structure Mark where
  center : ℚ × ℚ
  radius : ℚ
  deriving DecidableEq, Repr

/-- `TemplateTracker::TemplateData`: the stored template patch and radius. -/
structure TemplateData where
  search_template : QImage
  radius : ℚ

/-- The integer `cv::Rect roi(point.x - radius, point.y - radius,
2 * radius, 2 * radius)` of `InitTrackerData` (part_000 line 29); each
float expression is truncated toward zero by the `cv::Rect` constructor. -/
def initRoi (mark : Mark) : IRect :=
  ⟨cppInt (mark.center.1 - mark.radius), cppInt (mark.center.2 - mark.radius),
   cppInt (2 * mark.radius), cppInt (2 * mark.radius)⟩

/-- `TemplateTracker::InitTrackerData` (part_000 lines 15-36): fails (no
state created) when the mark's patch would leave the image, otherwise
stores a private copy of the patch and the radius. -/
def InitTrackerData (data : QImage) (mark : Mark) : Option TemplateData :=
  if mark.center.1 < mark.radius ∨ mark.center.1 ≥ (data.cols : ℚ) - mark.radius ∨
     mark.center.2 < mark.radius ∨ mark.center.2 ≥ (data.rows : ℚ) - mark.radius
  then none
  else some ⟨subimage data (initRoi mark), mark.radius⟩

/-- Modelled from the spec: the template's half-size (the header defining
`TemplateData::TopLeft`/`BottomRight` is not part of the provided sources;
§4.1 step 1 says the search region is extended "by the template's
half-size in every direction"). -/
def TemplateData.halfW (td : TemplateData) : ℤ := td.search_template.cols / 2

/-- Modelled from the spec: vertical half-size, see `TemplateData.halfW`. -/
def TemplateData.halfH (td : TemplateData) : ℤ := td.search_template.rows / 2

/-- Modelled from the spec: `TemplateData::TopLeft(p)` — `p` shifted up-left
by the template's half-size. -/
def TemplateData.TopLeft (td : TemplateData) (p : ℤ × ℤ) : ℤ × ℤ :=
  (p.1 - td.halfW, p.2 - td.halfH)

/-- Modelled from the spec: `TemplateData::BottomRight(p)` — `p` shifted
down-right by the template's half-size. -/
def TemplateData.BottomRight (td : TemplateData) (p : ℤ × ℤ) : ℤ × ℤ :=
  (p.1 + td.halfW, p.2 + td.halfH)

/-- The whole-image rectangle `cv::Rect(cv::Point(0,0), data.size())`. -/
def imageRect (img : QImage) : IRect := ⟨0, 0, img.cols, img.rows⟩

/-- The extended search region of `Search` (part_000 lines 60-64): whole
image when no region is given, otherwise the caller's rectangle extended by
the template's half-size via `TopLeft`/`BottomRight` and clipped to image
bounds. -/
def extendedRoi (td : TemplateData) (data : QImage) (roi : Option IRect) : IRect :=
  match roi with
  | none => imageRect data
  | some r =>
      rectInter (rectOfPoints (td.TopLeft r.tl) (td.BottomRight r.br))
        (imageRect data)

/-- Model of `cv::matchTemplate` as an abstract score producer: given the
searched (sub-)image and the template, it yields the score at each
position of the score map (whose documented dimensions are
`searched − template + 1` per axis, enforced by `gridSize` below). -/
def Matcher : Type := QImage → QImage → ℤ × ℤ → ℚ

/-- Two windows of size `tw × th` at `pa` in `a` and `pb` in `b` hold the
same pixels. -/
def windowEq (a : QImage) (pa : ℤ × ℤ) (b : QImage) (pb : ℤ × ℤ)
    (tw th : ℤ) : Prop :=
  ∀ i j, 0 ≤ i → i < tw → 0 ≤ j → j < th →
    a.pix (pa.1 + i) (pa.2 + j) = b.pix (pb.1 + i) (pb.2 + j)

/-- Locality of a matcher: the score at a position depends only on the
pixels of the window it scores (true of every `cv::matchTemplate` method,
whose formulas read exactly that window and the template). -/
def LocalMatcher (M : Matcher) : Prop :=
  ∀ a b tpl pa pb, 1 ≤ tpl.cols → 1 ≤ tpl.rows →
    windowEq a pa b pb tpl.cols tpl.rows → M a tpl pa = M b tpl pb

/-- The score map of `Search`: `matchTemplate(data(extended_roi),
tpl.search_template, match_result, CV_TM_CCOEFF_NORMED)` read at a score
position. -/
def searchScore (M : Matcher) (data : QImage) (td : TemplateData)
    (roi : Option IRect) : ℤ × ℤ → ℚ :=
  fun p => M (subimage data (extendedRoi td data roi)) td.search_template p

/-- Dimensions of the score map, `extendedRegion − templateSize + 1` per
axis (the documented `cv::matchTemplate` output size). -/
def gridSize (td : TemplateData) (data : QImage) (roi : Option IRect) : ℤ × ℤ :=
  ((extendedRoi td data roi).width - td.search_template.cols + 1,
   (extendedRoi td data roi).height - td.search_template.rows + 1)

/-- All score-map positions in the row-major order scanned by
`cv::minMaxLoc`. -/
def gridPositions (w h : ℤ) : List (ℤ × ℤ) :=
  (List.range h.toNat).flatMap fun (j : ℕ) =>
    (List.range w.toNat).map fun (i : ℕ) => (((i : ℕ) : ℤ), ((j : ℕ) : ℤ))

/-- The mask after the crop-and-shift of part_000 lines 87-101: cropped by
the extended region, then cropped again by
`cv::Rect(-tpl.TopLeft(), mask_br - tpl.BottomRight())` with the
"zero-based coordinates" `+1` size adjustment. -/
def shiftedMask (td : TemplateData) (ext : IRect) (mask : QImage) : QImage :=
  let cropped := subimage mask ext
  let base := rectOfPoints (td.halfW, td.halfH)
    (cropped.cols - td.halfW, cropped.rows - td.halfH)
  subimage cropped ⟨base.x, base.y, base.width + 1, base.height + 1⟩

/-- The asserted dimension agreement between the score map and the shifted
mask (part_000 lines 103-104); vacuously true without a mask. -/
def maskDimsOk (td : TemplateData) (data : QImage) (roi : Option IRect)
    (mask : Option QImage) : Bool :=
  match mask with
  | none => true
  | some m =>
      decide ((shiftedMask td (extendedRoi td data roi) m).cols =
          (gridSize td data roi).1) &&
      decide ((shiftedMask td (extendedRoi td data roi) m).rows =
          (gridSize td data roi).2)

/-- The score-map cells over which `minMaxLoc`/`meanStdDev` operate: all of
them, or only those with a nonzero shifted-mask value. -/
def searchPositions (td : TemplateData) (data : QImage) (roi : Option IRect)
    (mask : Option QImage) : List (ℤ × ℤ) :=
  match mask with
  | none => gridPositions (gridSize td data roi).1 (gridSize td data roi).2
  | some m =>
      (gridPositions (gridSize td data roi).1 (gridSize td data roi).2).filter
        fun p =>
          decide ((shiftedMask td (extendedRoi td data roi) m).pix p.1 p.2 ≠ 0)

/-- One scanning pass keeping the running extremum; the update condition is
strict so the FIRST position attaining the extremum in scan order is kept,
as `cv::minMaxLoc` does. -/
def scanBest (better : ℚ → ℚ → Bool) (f : ℤ × ℤ → ℚ) :
    (ℤ × ℤ) × ℚ → List (ℤ × ℤ) → (ℤ × ℤ) × ℚ
  | best, [] => best
  | best, q :: qs =>
      scanBest better f (if better (f q) best.2 then (q, f q) else best) qs

/-- `cv::minMaxLoc` over a cell list: `(min location/value, max
location/value)`, `none` when no cell is eligible. -/
def minMaxOf (f : ℤ × ℤ → ℚ) : List (ℤ × ℤ) →
    Option (((ℤ × ℤ) × ℚ) × ((ℤ × ℤ) × ℚ))
  | [] => none
  | p :: ps =>
      some (scanBest (fun v best => decide (v < best)) f (p, f p) ps,
            scanBest (fun v best => decide (best < v)) f (p, f p) ps)

/-- The confidence `value = max_val - min_val` computed for
`CV_TM_CCOEFF_NORMED` (part_000 line 113-115); `0` when no cell is
eligible. -/
def searchValue (M : Matcher) (data : QImage) (td : TemplateData)
    (roi : Option IRect) (mask : Option QImage) : ℚ :=
  match minMaxOf (searchScore M data td roi) (searchPositions td data roi mask) with
  | some (mn, mx) => mx.2 - mn.2
  | none => 0

/-- The mean and variance computed by `meanStdDev` over the (masked) score
cells (part_000 lines 107/110; `std_dev` is the square root of the second
component, which changes nothing about WHICH cells contribute). -/
def searchStats (M : Matcher) (data : QImage) (td : TemplateData)
    (roi : Option IRect) (mask : Option QImage) : ℚ × ℚ :=
  let pos := searchPositions td data roi mask
  let f := searchScore M data td roi
  let mean := (pos.map f).sum / pos.length
  (mean, (pos.map fun p => (f p - mean) ^ 2).sum / pos.length)

/-- Translation of a winning score-map location to absolute image
coordinates and packaging as the result `Mark` (part_000 lines 148-155). -/
def markOf (td : TemplateData) (ext : IRect) (loc : ℤ × ℤ) : Mark :=
  ⟨(((loc.1 + td.halfW + ext.x : ℤ) : ℚ), ((loc.2 + td.halfH + ext.y : ℤ) : ℚ)),
   td.radius⟩

/-- Outcome of `TemplateTracker::Search`: the boolean result with the
output `Mark`, plus an explicit assertion-failure outcome for the
`assert(match_result.rows == shifted_mask.rows)` checks. -/
inductive SearchResult where
  | assertFail
  | notFound
  | found (m : Mark)
  deriving DecidableEq, Repr

/-- `TemplateTracker::Search` (part_000 lines 41-159) for the compiled-in
method `CV_TM_CCOEFF_NORMED`: compute the extended region, reject when it
is smaller than the template, run the (abstract) matcher over it, restrict
to masked cells when a mask is given (after the asserted crop/shift
alignment), reject when `max − min ≤ threshold`, otherwise return the
max location translated to image coordinates with the stored radius. -/
def Search (M : Matcher) (data : QImage) (td : TemplateData)
    (roi : Option IRect) (mask : Option QImage) (threshold : ℚ) : SearchResult :=
  if (extendedRoi td data roi).width < td.search_template.cols ∨
     (extendedRoi td data roi).height < td.search_template.rows then
    .notFound
  else if maskDimsOk td data roi mask = false then .assertFail
  else
    match minMaxOf (searchScore M data td roi) (searchPositions td data roi mask) with
    | none => .notFound
    | some (mn, mx) =>
        if mx.2 - mn.2 ≤ threshold then .notFound
        else .found (markOf td (extendedRoi td data roi) mx.1)

/-! ## Claim C1: initialization bounds and the stored patch -/

lemma cppInt_intCast (n : ℤ) : cppInt ((n : ℤ) : ℚ) = n := by
  rw [cppInt, Rat.num_intCast, Rat.den_intCast, Nat.cast_one, Int.tdiv_one]

lemma cppInt_of_nonneg {q : ℚ} (hq : 0 ≤ q) : cppInt q = ⌊q⌋ := by
  rw [cppInt, Int.tdiv_eq_ediv (Rat.num_nonneg.mpr hq) (Int.natCast_nonneg _),
    ← Rat.floor_def]

/-- Claim C1 as stated: `InitTrackerData` succeeds iff
`radius ≤ min(center.x, center.y, width-1-center.x, height-1-center.y)`,
and on success the stored patch is the square of side exactly `2·radius`
centered on the mark's center. -/
def C1Statement : Prop :=
  ∀ (img : QImage) (mark : Mark), 0 ≤ mark.radius →
    (((InitTrackerData img mark).isSome = true) ↔
      mark.radius ≤ min (min mark.center.1 mark.center.2)
        (min ((img.cols : ℚ) - 1 - mark.center.1)
          ((img.rows : ℚ) - 1 - mark.center.2))) ∧
    ∀ td, InitTrackerData img mark = some td →
      ((initRoi mark).x : ℚ) = mark.center.1 - mark.radius ∧
      ((initRoi mark).y : ℚ) = mark.center.2 - mark.radius ∧
      ((initRoi mark).width : ℚ) = 2 * mark.radius ∧
      ((initRoi mark).height : ℚ) = 2 * mark.radius ∧
      td.search_template = subimage img (initRoi mark) ∧
      td.radius = mark.radius

/-- Claim C1 is false on non-integral marks: in a 100×100 image, the mark
at `(89.5, 50)` with radius 10 violates
`radius ≤ width - 1 - center.x = 9.5` yet the code's test
`center.x >= width - radius` (i.e. `89.5 >= 90`) does not fire, so
`InitTrackerData` succeeds; moreover at radius `9.75` the stored patch side
is the truncation `19`, not `2·radius = 19.5`. -/
theorem c1_counterexample :
    (¬ C1Statement) ∧
    (InitTrackerData ⟨100, 100, fun _ _ => 3⟩ ⟨(89.5, 50), 10⟩).isSome = true ∧
    ¬ ((10 : ℚ) ≤ min (min 89.5 50)
        (min ((100 : ℚ) - 1 - 89.5) ((100 : ℚ) - 1 - 50))) ∧
    initRoi ⟨(50, 50), 9.75⟩ = ⟨40, 40, 19, 19⟩ ∧
    ¬ ((((19 : ℤ)) : ℚ) = 2 * (9.75 : ℚ)) := by
  have hsucc : InitTrackerData ⟨100, 100, fun _ _ => 3⟩ ⟨(89.5, 50), 10⟩ =
      some ⟨subimage ⟨100, 100, fun _ _ => 3⟩ (initRoi ⟨(89.5, 50), 10⟩), 10⟩ := by
    rw [InitTrackerData, if_neg]
    norm_num
  have hroi : initRoi ⟨(50, 50), 9.75⟩ = ⟨40, 40, 19, 19⟩ := by
    show (⟨cppInt ((50 : ℚ) - 9.75), cppInt ((50 : ℚ) - 9.75),
      cppInt (2 * (9.75 : ℚ)), cppInt (2 * (9.75 : ℚ))⟩ : IRect) = _
    rw [show cppInt ((50 : ℚ) - 9.75) = 40 by
        rw [cppInt_of_nonneg (by norm_num)]; norm_num,
      show cppInt (2 * (9.75 : ℚ)) = 19 by
        rw [cppInt_of_nonneg (by norm_num)]; norm_num]
  refine ⟨fun h => ?_, by rw [hsucc]; rfl, by norm_num, hroi, by norm_num⟩
  have h2 := (h ⟨100, 100, fun _ _ => 3⟩ ⟨(89.5, 50), 10⟩ (by norm_num)).1
  have h3 := h2.mp (by rw [hsucc]; rfl)
  norm_num at h3

/-- Amended claim C1: `InitTrackerData` succeeds iff
`center.x ≥ radius ∧ center.x < width − radius ∧ center.y ≥ radius ∧
center.y < height − radius` (the spec's own failure-condition
formulation); on failure no tracker state is created; on success the
stored state is the radius together with the patch at the integer
rectangle `(⌊x−r⌋, ⌊y−r⌋, ⌊2r⌋, ⌊2r⌋)` (float→int truncation); and for
integral center and radius this is exactly the claim's
`radius ≤ min(x, y, width−1−x, height−1−y)` bound with the `2r`-sided
patch square centered on the mark. -/
theorem c1_amended_bounds :
    ∀ (img : QImage) (mark : Mark),
      (((InitTrackerData img mark).isSome = true) ↔
        (mark.radius ≤ mark.center.1 ∧
         mark.center.1 < (img.cols : ℚ) - mark.radius ∧
         mark.radius ≤ mark.center.2 ∧
         mark.center.2 < (img.rows : ℚ) - mark.radius)) ∧
      (∀ td, InitTrackerData img mark = some td →
        td.search_template = subimage img (initRoi mark) ∧
        td.radius = mark.radius) ∧
      (∀ a b c : ℤ, mark.center.1 = (a : ℚ) → mark.center.2 = (b : ℚ) →
        mark.radius = (c : ℚ) →
        (((InitTrackerData img mark).isSome = true) ↔
          c ≤ min (min a b) (min (img.cols - 1 - a) (img.rows - 1 - b))) ∧
        initRoi mark = ⟨a - c, b - c, 2 * c, 2 * c⟩) := by
  intro img mark
  have hiff : ((InitTrackerData img mark).isSome = true) ↔
      (mark.radius ≤ mark.center.1 ∧
       mark.center.1 < (img.cols : ℚ) - mark.radius ∧
       mark.radius ≤ mark.center.2 ∧
       mark.center.2 < (img.rows : ℚ) - mark.radius) := by
    unfold InitTrackerData
    split
    case isTrue h =>
      simp only [Option.isSome_none, Bool.false_eq_true, false_iff]
      rintro ⟨h1, h2, h3, h4⟩
      rcases h with h | h | h | h <;> linarith
    case isFalse h =>
      push_neg at h
      simp only [Option.isSome_some, true_iff]
      exact h
  refine ⟨hiff, ?_, ?_⟩
  · intro td htd
    unfold InitTrackerData at htd
    split at htd
    · exact absurd htd (by simp)
    · injection htd with h2
      rw [← h2]
      exact ⟨rfl, rfl⟩
  · intro a b c ha hb hc
    constructor
    · rw [hiff, ha, hb, hc,
        show ((img.cols : ℚ) - (c : ℚ) = ((img.cols - c : ℤ) : ℚ)) by push_cast; ring,
        show ((img.rows : ℚ) - (c : ℚ) = ((img.rows - c : ℤ) : ℚ)) by push_cast; ring]
      rw [Int.cast_le, Int.cast_le, Int.cast_lt, Int.cast_lt,
        le_min_iff, le_min_iff, le_min_iff]
      omega
    · unfold initRoi
      rw [ha, hb, hc,
        show ((a : ℚ) - (c : ℚ) = ((a - c : ℤ) : ℚ)) by push_cast; ring,
        show ((b : ℚ) - (c : ℚ) = ((b - c : ℤ) : ℚ)) by push_cast; ring,
        show ((2 * (c : ℚ)) = ((2 * c : ℤ) : ℚ)) by push_cast; ring,
        cppInt_intCast, cppInt_intCast, cppInt_intCast]

/-- Concrete instance of the amended C1 theorem: spec scenario A, a mark at
`(50, 50)` with radius 10 in a 100×100 image succeeds with a 20×20 patch at
`(40, 40)`. -/
theorem c1_amended_witness :
    (InitTrackerData ⟨100, 100, fun _ _ => 3⟩ ⟨(50, 50), 10⟩).isSome = true ∧
    initRoi ⟨(50, 50), 10⟩ = ⟨40, 40, 20, 20⟩ := by
  have h := (c1_amended_bounds ⟨100, 100, fun _ _ => 3⟩ ⟨(50, 50), 10⟩).2.2
    50 50 10 (by norm_num) (by norm_num) (by norm_num)
  refine ⟨h.1.mpr ?_, by rw [h.2]; norm_num⟩
  show (10 : ℤ) ≤ min (min 50 50) (min (100 - 1 - 50) (100 - 1 - 50))
  omega

/-! ## Scan and grid lemmas for the `Search` proofs -/

/-- The matcher returning the top-left pixel of each window; used as a
concrete local matcher in counterexamples and witnesses. -/
def pixTL : Matcher := fun im _ p => im.pix p.1 p.2

/-- The constant-zero matcher, the score map `cv::matchTemplate` produces
on a constant image (every window identical, zero variance). -/
def constM : Matcher := fun _ _ _ => 0

lemma localMatcher_pixTL : LocalMatcher pixTL := by
  intro a b tpl pa pb hc hr hw
  have h := hw 0 0 (le_refl 0) hc (le_refl 0) hr
  simpa [pixTL] using h

lemma localMatcher_constM : LocalMatcher constM := by
  intro a b tpl pa pb _ _ _
  rfl

lemma scanBest_shape (better : ℚ → ℚ → Bool) (f : ℤ × ℤ → ℚ) :
    ∀ (l : List (ℤ × ℤ)) (r0 : ℤ × ℤ),
      ∃ r, (r = r0 ∨ r ∈ l) ∧ scanBest better f (r0, f r0) l = (r, f r) := by
  intro l
  induction l with
  | nil => exact fun r0 => ⟨r0, Or.inl rfl, rfl⟩
  | cons q qs ih =>
    intro r0
    rw [scanBest]
    cases hb : better (f q) (f r0) with
    | false =>
      obtain ⟨r, hr1, hr2⟩ := ih r0
      refine ⟨r, ?_, by simpa [hb] using hr2⟩
      rcases hr1 with h | h
      · exact Or.inl h
      · exact Or.inr (List.mem_cons_of_mem _ h)
    | true =>
      obtain ⟨r, hr1, hr2⟩ := ih q
      refine ⟨r, ?_, by simpa [hb] using hr2⟩
      rcases hr1 with h | h
      · exact Or.inr (h ▸ List.mem_cons_self _ _)
      · exact Or.inr (List.mem_cons_of_mem _ h)

lemma scanBest_min_le (f : ℤ × ℤ → ℚ) :
    ∀ (l : List (ℤ × ℤ)) (b : (ℤ × ℤ) × ℚ),
      (scanBest (fun v best => decide (v < best)) f b l).2 ≤ b.2 ∧
      ∀ q ∈ l, (scanBest (fun v best => decide (v < best)) f b l).2 ≤ f q := by
  intro l
  induction l with
  | nil => exact fun b => ⟨le_refl _, by simp⟩
  | cons q qs ih =>
    intro b
    rw [scanBest]
    by_cases hlt : f q < b.2
    · rw [if_pos (by simpa using hlt)]
      refine ⟨le_trans (ih (q, f q)).1 (le_of_lt hlt), fun x hx => ?_⟩
      rcases List.mem_cons.mp hx with rfl | hx2
      · exact (ih (x, f x)).1
      · exact (ih (q, f q)).2 x hx2
    · rw [if_neg (by simpa using hlt)]
      refine ⟨(ih b).1, fun x hx => ?_⟩
      rcases List.mem_cons.mp hx with rfl | hx2
      · exact le_trans (ih b).1 (not_lt.mp hlt)
      · exact (ih b).2 x hx2

lemma scanBest_max_stay (f : ℤ × ℤ → ℚ) (pstar : ℤ × ℤ) :
    ∀ (l : List (ℤ × ℤ)), (∀ q ∈ l, f q ≤ f pstar) →
      scanBest (fun v best => decide (best < v)) f (pstar, f pstar) l =
        (pstar, f pstar) := by
  intro l
  induction l with
  | nil => exact fun _ => rfl
  | cons q qs ih =>
    intro hle
    rw [scanBest,
      if_neg (by simpa using not_lt.mpr (hle q (List.mem_cons_self _ _)))]
    exact ih fun x hx => hle x (List.mem_cons_of_mem _ hx)

lemma scanBest_max_reach (f : ℤ × ℤ → ℚ) (pstar : ℤ × ℤ) :
    ∀ (l : List (ℤ × ℤ)) (b : (ℤ × ℤ) × ℚ),
      b.2 < f pstar → pstar ∈ l → (∀ q ∈ l, q ≠ pstar → f q < f pstar) →
      scanBest (fun v best => decide (best < v)) f b l = (pstar, f pstar) := by
  intro l
  induction l with
  | nil => intro b _ hmem; simp at hmem
  | cons q qs ih =>
    intro b hb hmem hlt
    rw [scanBest]
    by_cases hq : q = pstar
    · subst hq
      rw [if_pos (by simpa using hb)]
      exact scanBest_max_stay f q qs fun x hx => by
        by_cases hxq : x = q
        · exact hxq ▸ le_refl _
        · exact (hlt x (List.mem_cons_of_mem _ hx) hxq).le
    · have hmem2 : pstar ∈ qs := by
        rcases List.mem_cons.mp hmem with h | h
        · exact absurd h.symm hq
        · exact h
      have hfq : f q < f pstar := hlt q (List.mem_cons_self _ _) hq
      by_cases hcond : b.2 < f q
      · rw [if_pos (by simpa using hcond)]
        exact ih (q, f q) hfq hmem2
          fun x hx hxne => hlt x (List.mem_cons_of_mem _ hx) hxne
      · rw [if_neg (by simpa using hcond)]
        exact ih b hb hmem2
          fun x hx hxne => hlt x (List.mem_cons_of_mem _ hx) hxne

/-- With a strict unique maximum at `pstar`, `minMaxOf` returns `pstar` as
the max location, and its min value is a lower bound of all cells. -/
lemma minMaxOf_max_unique (f : ℤ × ℤ → ℚ) (pstar : ℤ × ℤ)
    (l : List (ℤ × ℤ)) (hmem : pstar ∈ l)
    (hlt : ∀ q ∈ l, q ≠ pstar → f q < f pstar) :
    ∃ mn, minMaxOf f l = some (mn, (pstar, f pstar)) ∧
      ∀ q ∈ l, mn.2 ≤ f q := by
  cases l with
  | nil => simp at hmem
  | cons p ps =>
    have hmax : scanBest (fun v best => decide (best < v)) f (p, f p) ps =
        (pstar, f pstar) := by
      by_cases hp : p = pstar
      · subst hp
        exact scanBest_max_stay f p ps fun x hx => by
          by_cases hxp : x = p
          · exact hxp ▸ le_refl _
          · exact (hlt x (List.mem_cons_of_mem _ hx) hxp).le
      · have hmem2 : pstar ∈ ps := by
          rcases List.mem_cons.mp hmem with h | h
          · exact absurd h.symm hp
          · exact h
        exact scanBest_max_reach f pstar ps (p, f p)
          (hlt p (List.mem_cons_self _ _) hp) hmem2
          fun x hx hxne => hlt x (List.mem_cons_of_mem _ hx) hxne
    refine ⟨_, by rw [minMaxOf, hmax], fun q hq => ?_⟩
    rcases List.mem_cons.mp hq with rfl | hq2
    · exact (scanBest_min_le f ps (q, f q)).1
    · exact (scanBest_min_le f ps (p, f p)).2 q hq2

lemma scanBest_congr (better : ℚ → ℚ → Bool) (f g : ℤ × ℤ → ℚ) :
    ∀ (l : List (ℤ × ℤ)) (b : (ℤ × ℤ) × ℚ),
      (∀ q ∈ l, f q = g q) → scanBest better f b l = scanBest better g b l := by
  intro l
  induction l with
  | nil => exact fun _ _ => rfl
  | cons q qs ih =>
    intro b hfg
    rw [scanBest, scanBest, hfg q (List.mem_cons_self _ _)]
    exact ih _ fun x hx => hfg x (List.mem_cons_of_mem _ hx)

lemma minMaxOf_congr (f g : ℤ × ℤ → ℚ) (l : List (ℤ × ℤ))
    (h : ∀ q ∈ l, f q = g q) : minMaxOf f l = minMaxOf g l := by
  cases l with
  | nil => rfl
  | cons p ps =>
    rw [minMaxOf, minMaxOf, h p (List.mem_cons_self _ _),
      scanBest_congr _ f g ps _ fun x hx => h x (List.mem_cons_of_mem _ hx),
      scanBest_congr _ f g ps _ fun x hx => h x (List.mem_cons_of_mem _ hx)]

lemma mem_gridPositions {w h : ℤ} {p : ℤ × ℤ} :
    p ∈ gridPositions w h ↔ 0 ≤ p.1 ∧ p.1 < w ∧ 0 ≤ p.2 ∧ p.2 < h := by
  obtain ⟨x, y⟩ := p
  constructor
  · intro hp
    obtain ⟨j, hj, hmem⟩ := List.mem_flatMap.mp hp
    obtain ⟨i, hi, heq⟩ := List.mem_map.mp hmem
    rw [Prod.mk.injEq] at heq
    obtain ⟨hx, hy⟩ := heq
    rw [List.mem_range] at hi hj
    refine ⟨?_, ?_, ?_, ?_⟩ <;> omega
  · rintro ⟨h1, h2, h3, h4⟩
    refine List.mem_flatMap.mpr
      ⟨y.toNat, ?_, List.mem_map.mpr ⟨x.toNat, ?_, ?_⟩⟩
    · rw [List.mem_range]; omega
    · rw [List.mem_range]; omega
    · rw [Prod.mk.injEq]
      constructor <;> omega

lemma Search_eq_core (M : Matcher) (data : QImage) (td : TemplateData)
    (roi : Option IRect) (mask : Option QImage) (t : ℚ)
    (hsmall : ¬ ((extendedRoi td data roi).width < td.search_template.cols ∨
        (extendedRoi td data roi).height < td.search_template.rows))
    (hok : maskDimsOk td data roi mask = true) :
    Search M data td roi mask t =
      match minMaxOf (searchScore M data td roi)
          (searchPositions td data roi mask) with
      | none => .notFound
      | some (mn, mx) =>
          if mx.2 - mn.2 ≤ t then .notFound
          else .found (markOf td (extendedRoi td data roi) mx.1) := by
  rw [Search, if_neg hsmall, if_neg (by rw [hok]; simp)]

/-- Claim C5: for the compiled-in `CV_TM_CCOEFF_NORMED` method, whenever
`Search` reaches the scoring stage (region not too small, mask assertions
pass, at least one eligible cell) it computes the confidence as
`max − min` over the (masked) score cells and returns not-found exactly
when that confidence is `≤ threshold`; and for fixed inputs, raising the
threshold can only turn found into not-found, never the reverse. -/
theorem c5_confidence_threshold :
    ∀ (M : Matcher) (data : QImage) (td : TemplateData) (roi : Option IRect)
      (mask : Option QImage) (t : ℚ),
      ¬ ((extendedRoi td data roi).width < td.search_template.cols ∨
         (extendedRoi td data roi).height < td.search_template.rows) →
      maskDimsOk td data roi mask = true →
      searchPositions td data roi mask ≠ [] →
      ((Search M data td roi mask t = .notFound ↔
          searchValue M data td roi mask ≤ t) ∧
        ∀ t2 m, t ≤ t2 → Search M data td roi mask t2 = .found m →
          Search M data td roi mask t = .found m) := by
  intro M data td roi mask t hsmall hok hpos
  constructor
  · rw [Search_eq_core M data td roi mask t hsmall hok]
    cases hl : searchPositions td data roi mask with
    | nil => exact absurd hl hpos
    | cons p ps =>
      rw [searchValue, hl, minMaxOf]
      set f := searchScore M data td roi with hf
      set mx := scanBest (fun v best => decide (best < v)) f (p, f p) ps with hmx
      set mn := scanBest (fun v best => decide (v < best)) f (p, f p) ps with hmn
      show (if mx.2 - mn.2 ≤ t then SearchResult.notFound
          else SearchResult.found (markOf td (extendedRoi td data roi) mx.1)) =
          SearchResult.notFound ↔ mx.2 - mn.2 ≤ t
      by_cases hv : mx.2 - mn.2 ≤ t
      · rw [if_pos hv]
        simpa using hv
      · rw [if_neg hv]
        exact iff_of_false (by simp) hv
  · intro t2 m ht hfound
    rw [Search_eq_core M data td roi mask t2 hsmall hok] at hfound
    rw [Search_eq_core M data td roi mask t hsmall hok]
    cases hmm : minMaxOf (searchScore M data td roi)
        (searchPositions td data roi mask) with
    | none => rw [hmm] at hfound; exact absurd hfound (by simp)
    | some pr =>
      obtain ⟨mn, mx⟩ := pr
      rw [hmm] at hfound
      change (if mx.2 - mn.2 ≤ t2 then SearchResult.notFound
          else SearchResult.found (markOf td (extendedRoi td data roi) mx.1)) =
          SearchResult.found m at hfound
      change (if mx.2 - mn.2 ≤ t then SearchResult.notFound
          else SearchResult.found (markOf td (extendedRoi td data roi) mx.1)) =
          SearchResult.found m
      by_cases hv2 : mx.2 - mn.2 ≤ t2
      · rw [if_pos hv2] at hfound
        exact absurd hfound (by simp)
      · rw [if_neg hv2] at hfound
        rw [if_neg (fun hle => hv2 (le_trans hle ht))]
        exact hfound

/-- Concrete instance of C5: a 4×4 image searched with a 2×2 template and
no mask, where the not-found outcome coincides with the confidence being
below the threshold. -/
theorem c5_witness :
    Search pixTL ⟨4, 4, fun i j => ((i + j : ℤ) : ℚ)⟩
        ⟨⟨2, 2, fun _ _ => 1⟩, 1⟩ none none 0 = .notFound ↔
      searchValue pixTL ⟨4, 4, fun i j => ((i + j : ℤ) : ℚ)⟩
        ⟨⟨2, 2, fun _ _ => 1⟩, 1⟩ none none ≤ 0 :=
  (c5_confidence_threshold pixTL ⟨4, 4, fun i j => ((i + j : ℤ) : ℚ)⟩
    ⟨⟨2, 2, fun _ _ => 1⟩, 1⟩ none none 0 (by decide) rfl (by decide)).1

/-- Claim C7: the extended search region is the whole image when no region
is given, and otherwise the caller's rectangle extended outward by the
template's half-size in every direction and clipped to image bounds;
`Search` returns not-found whenever the extended region is strictly
smaller than the template in either dimension; otherwise the score map has
dimensions `extendedRegion − templateSize + 1` per axis. -/
theorem c7_extended_region :
    ∀ (M : Matcher) (data : QImage) (td : TemplateData) (mask : Option QImage)
      (t : ℚ) (r : IRect),
      0 ≤ td.search_template.cols → 0 ≤ td.search_template.rows →
      0 ≤ r.width → 0 ≤ r.height →
      (extendedRoi td data none = imageRect data) ∧
      (extendedRoi td data (some r) =
        rectInter
          ⟨r.x - td.halfW, r.y - td.halfH,
           r.width + 2 * td.halfW, r.height + 2 * td.halfH⟩
          (imageRect data)) ∧
      (∀ roi2 : Option IRect,
        (extendedRoi td data roi2).width < td.search_template.cols ∨
        (extendedRoi td data roi2).height < td.search_template.rows →
        Search M data td roi2 mask t = .notFound) ∧
      (∀ roi2 : Option IRect,
        gridSize td data roi2 =
          ((extendedRoi td data roi2).width - td.search_template.cols + 1,
           (extendedRoi td data roi2).height - td.search_template.rows + 1)) := by
  intro M data td mask t r hc hr hw hh
  have hhw : 0 ≤ td.halfW := Int.ediv_nonneg hc (by norm_num)
  have hhh : 0 ≤ td.halfH := Int.ediv_nonneg hr (by norm_num)
  refine ⟨rfl, ?_, ?_, fun roi2 => rfl⟩
  · have hrect : rectOfPoints (td.TopLeft r.tl) (td.BottomRight r.br) =
        ⟨r.x - td.halfW, r.y - td.halfH,
         r.width + 2 * td.halfW, r.height + 2 * td.halfH⟩ := by
      simp only [rectOfPoints, TemplateData.TopLeft, TemplateData.BottomRight,
        IRect.tl, IRect.br, IRect.mk.injEq]
      refine ⟨?_, ?_, ?_, ?_⟩ <;> omega
    show rectInter (rectOfPoints (td.TopLeft r.tl) (td.BottomRight r.br))
        (imageRect data) = _
    rw [hrect]
  · intro roi2 hlt
    rw [Search, if_pos hlt]

/-- Concrete instance of C7: a 3×3 region at `(2,2)` with a 2×2 template in
a 6×6 image is extended by the half-size 1 on every side and clipped. -/
theorem c7_witness :
    extendedRoi ⟨⟨2, 2, fun _ _ => 1⟩, 1⟩ ⟨6, 6, fun _ _ => 0⟩
        (some ⟨2, 2, 3, 3⟩) =
      rectInter ⟨2 - 1, 2 - 1, 3 + 2 * 1, 3 + 2 * 1⟩
        (imageRect ⟨6, 6, fun _ _ => 0⟩) :=
  (c7_extended_region constM ⟨6, 6, fun _ _ => 0⟩ ⟨⟨2, 2, fun _ _ => 1⟩, 1⟩
    none 0 ⟨2, 2, 3, 3⟩ (by decide) (by decide) (by decide) (by decide)).2.1

/-! ## Claim C6: mask cropping, alignment assertions, masked statistics -/

/-- Claim C6 as stated: with a mask, whenever the small-region check has
passed the crop/shift assertions hold, the returned match location always
carries a nonzero mask value, and the min/max/mean/deviation statistics
depend only on the masked cells. -/
def C6Statement : Prop :=
  ∀ (M M2 : Matcher) (data : QImage) (td : TemplateData) (roi : Option IRect)
    (m : QImage) (t : ℚ),
    ¬ ((extendedRoi td data roi).width < td.search_template.cols ∨
       (extendedRoi td data roi).height < td.search_template.rows) →
    (maskDimsOk td data roi (some m) = true) ∧
    (∀ mk, Search M data td roi (some m) t = .found mk →
      ∃ p ∈ searchPositions td data roi (some m),
        (shiftedMask td (extendedRoi td data roi) m).pix p.1 p.2 ≠ 0 ∧
        mk = markOf td (extendedRoi td data roi) p) ∧
    ((∀ p ∈ searchPositions td data roi (some m),
        searchScore M data td roi p = searchScore M2 data td roi p) →
      Search M data td roi (some m) t = Search M2 data td roi (some m) t ∧
      searchStats M data td roi (some m) = searchStats M2 data td roi (some m))

/-- For an odd 3×3 template in an 8×8 image the shifted mask is 7 cells
wide while the score map is 6, so the in-code dimension assertion fails. -/
lemma maskDimsOk_odd_template (td : TemplateData) (data m : QImage)
    (hc : td.search_template.cols = 3) (hdc : data.cols = 8) :
    maskDimsOk td data none (some m) = false := by
  have h1 : (shiftedMask td (extendedRoi td data none) m).cols = 7 := by
    have hhalf : td.halfW = 1 := by rw [TemplateData.halfW, hc]; decide
    simp only [shiftedMask, subimage, rectOfPoints, extendedRoi, imageRect,
      hhalf, hdc]
    norm_num
  have h2 : (gridSize td data none).1 = 6 := by
    simp only [gridSize, extendedRoi, imageRect, hc, hdc]
    norm_num
  simp only [maskDimsOk, h1, h2]
  norm_num

/-- Claim C6 is false as stated: a circle mark of radius 1.5 passes
`InitTrackerData` and stores a 3×3 template (truncation of `2·1.5`), and on
any mask the shifted-mask width is then `ext − 2·(3/2) + 1 = ext − 1`,
one more than the score-map width `ext − 2`, so the asserted dimension
match fails although the small-region check passed. -/
theorem c6_counterexample :
    (¬ C6Statement) ∧
    (InitTrackerData ⟨8, 8, fun _ _ => 3⟩ ⟨(4, 4), 3/2⟩).map
      (fun td => td.search_template.cols) = some 3 := by
  have hinit : InitTrackerData ⟨8, 8, fun _ _ => 3⟩ ⟨(4, 4), 3/2⟩ =
      some ⟨subimage ⟨8, 8, fun _ _ => 3⟩ (initRoi ⟨(4, 4), 3/2⟩), 3/2⟩ := by
    rw [InitTrackerData, if_neg]
    norm_num
  have hwidth : (initRoi ⟨(4, 4), 3/2⟩).width = 3 := by
    show cppInt (2 * (3/2 : ℚ)) = 3
    rw [show (2 * (3/2 : ℚ)) = ((3 : ℤ) : ℚ) by norm_num, cppInt_intCast]
  constructor
  · intro h
    have h2 := (h constM constM ⟨8, 8, fun _ _ => 3⟩
      ⟨subimage ⟨8, 8, fun _ _ => 3⟩ (initRoi ⟨(4, 4), 3/2⟩), 3/2⟩ none
      ⟨8, 8, fun _ _ => 1⟩ 0 (by
        show ¬ ((8 : ℤ) < (initRoi ⟨(4, 4), 3/2⟩).width ∨
          (8 : ℤ) < (initRoi ⟨(4, 4), 3/2⟩).height)
        rw [show (initRoi ⟨(4, 4), 3/2⟩).height = 3 from hwidth, hwidth]
        norm_num)).1
    rw [maskDimsOk_odd_template _ _ _ hwidth rfl] at h2
    exact absurd h2 (by simp)
  · rw [hinit, Option.map_some']
    show some (initRoi ⟨(4, 4), 3/2⟩).width = some 3
    rw [hwidth]

/-- Amended claim C6: PROVIDED the stored template has even width and
height (as holds for every integral radius, where the patch side is `2r`),
the crop/shift alignment assertions hold whenever the small-region check
has passed; moreover the min/max and mean/deviation statistics depend only
on the masked score cells, and a location excluded by the mask (zero mask
value) is never returned as the match. -/
theorem c6_mask_restriction :
    ∀ (M M2 : Matcher) (data : QImage) (td : TemplateData) (roi : Option IRect)
      (m : QImage) (t : ℚ),
      ¬ ((extendedRoi td data roi).width < td.search_template.cols ∨
         (extendedRoi td data roi).height < td.search_template.rows) →
      td.search_template.cols % 2 = 0 → td.search_template.rows % 2 = 0 →
      (maskDimsOk td data roi (some m) = true) ∧
      (∀ mk, Search M data td roi (some m) t = .found mk →
        ∃ p ∈ searchPositions td data roi (some m),
          (shiftedMask td (extendedRoi td data roi) m).pix p.1 p.2 ≠ 0 ∧
          mk = markOf td (extendedRoi td data roi) p) ∧
      ((∀ p ∈ searchPositions td data roi (some m),
          searchScore M data td roi p = searchScore M2 data td roi p) →
        Search M data td roi (some m) t = Search M2 data td roi (some m) t ∧
        searchStats M data td roi (some m) = searchStats M2 data td roi (some m)) := by
  intro M M2 data td roi m t hsmall hevenW hevenH
  push_neg at hsmall
  have h2w : 2 * td.halfW = td.search_template.cols := by
    have := Int.ediv_add_emod td.search_template.cols 2
    rw [TemplateData.halfW]
    omega
  have h2h : 2 * td.halfH = td.search_template.rows := by
    have := Int.ediv_add_emod td.search_template.rows 2
    rw [TemplateData.halfH]
    omega
  have hok : maskDimsOk td data roi (some m) = true := by
    have hcols : (shiftedMask td (extendedRoi td data roi) m).cols =
        (gridSize td data roi).1 := by
      simp only [shiftedMask, subimage, rectOfPoints, gridSize]
      omega
    have hrows : (shiftedMask td (extendedRoi td data roi) m).rows =
        (gridSize td data roi).2 := by
      simp only [shiftedMask, subimage, rectOfPoints, gridSize]
      omega
    simp [maskDimsOk, hcols, hrows]
  refine ⟨hok, ?_, ?_⟩
  · intro mk hfound
    rw [Search_eq_core M data td roi (some m) t (by push_neg; exact hsmall) hok]
      at hfound
    cases hl : searchPositions td data roi (some m) with
    | nil => rw [hl] at hfound; exact absurd hfound (by simp [minMaxOf])
    | cons p ps =>
      rw [hl, minMaxOf] at hfound
      set f := searchScore M data td roi with hf
      obtain ⟨rr, hrr1, hrr2⟩ :=
        scanBest_shape (fun v best => decide (best < v)) f ps p
      change (if (scanBest (fun v best => decide (best < v)) f (p, f p) ps).2 -
          (scanBest (fun v best => decide (v < best)) f (p, f p) ps).2 ≤ t
          then SearchResult.notFound
          else SearchResult.found (markOf td (extendedRoi td data roi)
            (scanBest (fun v best => decide (best < v)) f (p, f p) ps).1)) =
          SearchResult.found mk at hfound
      by_cases hv : (scanBest (fun v best => decide (best < v)) f (p, f p) ps).2 -
          (scanBest (fun v best => decide (v < best)) f (p, f p) ps).2 ≤ t
      · rw [if_pos hv] at hfound
        exact absurd hfound (by simp)
      · rw [if_neg hv] at hfound
        have hmk : mk = markOf td (extendedRoi td data roi)
            (scanBest (fun v best => decide (best < v)) f (p, f p) ps).1 := by
          have := hfound
          injection this with h3
          exact h3.symm
        have hmem : (scanBest (fun v best => decide (best < v)) f (p, f p) ps).1
            ∈ p :: ps := by
          rw [hrr2]
          rcases hrr1 with h4 | h4
          · exact h4 ▸ List.mem_cons_self _ _
          · exact List.mem_cons_of_mem _ h4
        refine ⟨_, hmem, ?_, hmk⟩
        have hfilter : (scanBest (fun v best => decide (best < v)) f (p, f p) ps).1
            ∈ searchPositions td data roi (some m) := by
          rw [hl]; exact hmem
        rw [searchPositions] at hfilter
        have := List.of_mem_filter hfilter
        simpa using this
  · intro hagree
    have hcongr : minMaxOf (searchScore M data td roi)
        (searchPositions td data roi (some m)) =
        minMaxOf (searchScore M2 data td roi)
          (searchPositions td data roi (some m)) :=
      minMaxOf_congr _ _ _ hagree
    constructor
    · rw [Search_eq_core M data td roi (some m) t (by push_neg; exact hsmall) hok,
        Search_eq_core M2 data td roi (some m) t (by push_neg; exact hsmall) hok,
        hcongr]
    · have hmap : (searchPositions td data roi (some m)).map
          (searchScore M data td roi) =
          (searchPositions td data roi (some m)).map
            (searchScore M2 data td roi) :=
        List.map_congr_left hagree
      simp only [searchStats, hmap]
      have hmap2 : ∀ mean : ℚ, (searchPositions td data roi (some m)).map
          (fun p => (searchScore M data td roi p - mean) ^ 2) =
          (searchPositions td data roi (some m)).map
            (fun p => (searchScore M2 data td roi p - mean) ^ 2) := by
        intro mean
        refine List.map_congr_left fun x hx => ?_
        rw [hagree x hx]
      rw [hmap2]

/-- Concrete instance of the amended C6 theorem: a 2×2 (even) template in a
4×4 image with a mask passes the dimension assertions. -/
theorem c6_witness :
    maskDimsOk ⟨⟨2, 2, fun _ _ => 1⟩, 1⟩ ⟨4, 4, fun i j => ((i + j : ℤ) : ℚ)⟩
      none (some ⟨4, 4, fun i j => if i = 0 ∧ j = 0 then 0 else 1⟩) = true :=
  (c6_mask_restriction pixTL pixTL ⟨4, 4, fun i j => ((i + j : ℤ) : ℚ)⟩
    ⟨⟨2, 2, fun _ _ => 1⟩, 1⟩ none
    ⟨4, 4, fun i j => if i = 0 ∧ j = 0 then 0 else 1⟩ 0
    (by decide) (by decide) (by decide)).1

/-! ## Claim C3: round-trip self-match -/

/-- Claim C3 as stated, over every local matcher (every deterministic
window-function score, as `cv::matchTemplate` is): after a successful
initialization, searching the same image with no region, no mask and
threshold 0 returns a mark at the original center (up to integer rounding)
with the original radius. -/
def C3Statement : Prop :=
  ∀ (M : Matcher), LocalMatcher M →
    ∀ (img : QImage) (mark : Mark) (td : TemplateData),
      0 ≤ mark.radius →
      InitTrackerData img mark = some td →
      ∃ mk, Search M img td none none 0 = .found mk ∧
        |mk.center.1 - mark.center.1| ≤ 1 ∧
        |mk.center.2 - mark.center.2| ≤ 1 ∧
        mk.radius = mark.radius

/-- Claim C3 is false: on a CONSTANT image every window is identical, so
every local matcher scores every position identically (for
`CV_TM_CCOEFF_NORMED` OpenCV produces 0 everywhere, the zero-variance
degenerate case); the confidence `max − min` is then 0, which is
`≤ threshold = 0`, and `Search` reports not-found instead of the mark at
`(4, 4)` with radius 2 it was initialized from. -/
theorem c3_counterexample : ¬ C3Statement := by
  intro h
  have hinit : InitTrackerData ⟨8, 8, fun _ _ => 3⟩ ⟨(4, 4), 2⟩ =
      some ⟨subimage ⟨8, 8, fun _ _ => 3⟩ (initRoi ⟨(4, 4), 2⟩), 2⟩ := by
    rw [InitTrackerData, if_neg]
    norm_num
  obtain ⟨mk, hmk, _⟩ := h constM localMatcher_constM ⟨8, 8, fun _ _ => 3⟩
    ⟨(4, 4), 2⟩ ⟨subimage ⟨8, 8, fun _ _ => 3⟩ (initRoi ⟨(4, 4), 2⟩), 2⟩
    (by norm_num) hinit
  have hW : (initRoi (⟨(4, 4), 2⟩ : Mark)).width = 4 := by
    show cppInt (2 * (2 : ℚ)) = 4
    rw [show (2 * (2 : ℚ)) = ((4 : ℤ) : ℚ) by norm_num, cppInt_intCast]
  have hsmall : ¬ ((extendedRoi
      ⟨subimage ⟨8, 8, fun _ _ => 3⟩ (initRoi ⟨(4, 4), 2⟩), 2⟩
      ⟨8, 8, fun _ _ => 3⟩ none).width <
        (⟨subimage ⟨8, 8, fun _ _ => 3⟩ (initRoi ⟨(4, 4), 2⟩), 2⟩ :
          TemplateData).search_template.cols ∨
      (extendedRoi ⟨subimage ⟨8, 8, fun _ _ => 3⟩ (initRoi ⟨(4, 4), 2⟩), 2⟩
      ⟨8, 8, fun _ _ => 3⟩ none).height <
        (⟨subimage ⟨8, 8, fun _ _ => 3⟩ (initRoi ⟨(4, 4), 2⟩), 2⟩ :
          TemplateData).search_template.rows) := by
    show ¬ ((8 : ℤ) < (initRoi (⟨(4, 4), 2⟩ : Mark)).width ∨
      (8 : ℤ) < (initRoi (⟨(4, 4), 2⟩ : Mark)).height)
    rw [show (initRoi (⟨(4, 4), 2⟩ : Mark)).height = 4 from hW, hW]
    norm_num
  have hnf : Search constM ⟨8, 8, fun _ _ => 3⟩
      ⟨subimage ⟨8, 8, fun _ _ => 3⟩ (initRoi ⟨(4, 4), 2⟩), 2⟩ none none 0 =
      .notFound := by
    rw [Search_eq_core constM ⟨8, 8, fun _ _ => 3⟩
      ⟨subimage ⟨8, 8, fun _ _ => 3⟩ (initRoi ⟨(4, 4), 2⟩), 2⟩ none none 0
      hsmall rfl]
    set td2 : TemplateData :=
      ⟨subimage ⟨8, 8, fun _ _ => 3⟩ (initRoi ⟨(4, 4), 2⟩), 2⟩ with htd2
    set f := searchScore constM ⟨8, 8, fun _ _ => 3⟩ td2 none with hfdef
    cases hl : searchPositions td2 ⟨8, 8, fun _ _ => 3⟩ none none with
    | nil => rfl
    | cons p ps =>
      change (if (scanBest (fun v best => decide (best < v)) f (p, f p) ps).2 -
          (scanBest (fun v best => decide (v < best)) f (p, f p) ps).2 ≤ 0
          then SearchResult.notFound
          else SearchResult.found _) = SearchResult.notFound
      obtain ⟨rmax, _, hmax⟩ :=
        scanBest_shape (fun v best => decide (best < v)) f ps p
      obtain ⟨rmin, _, hmin⟩ :=
        scanBest_shape (fun v best => decide (v < best)) f ps p
      rw [if_pos]
      rw [hmax, hmin]
      show f rmax - f rmin ≤ 0
      show (0 : ℚ) - 0 ≤ 0
      norm_num
  rw [hnf] at hmk
  exact SearchResult.noConfusion hmk

/-- Amended claim C3: PROVIDED the score map attains a strict unique
maximum at the template's own position `(x − r, y − r)` and the extended
region offers at least one other candidate position (so `max > min` and
the confidence exceeds the threshold 0), the round-trip holds exactly: for
an integral mark `(x, y, r)` whose initialization succeeded, `Search` on
the same image with no region, no mask and threshold 0 returns found with
center exactly `(x, y)` and radius `r`. -/
theorem c3_amended_self_peak :
    ∀ (M : Matcher) (img : QImage) (a b c : ℤ) (td : TemplateData),
      1 ≤ c →
      InitTrackerData img ⟨((a : ℚ), (b : ℚ)), ((c : ℤ) : ℚ)⟩ = some td →
      (∀ q ∈ gridPositions (gridSize td img none).1 (gridSize td img none).2,
        q ≠ ((a - c, b - c) : ℤ × ℤ) →
        searchScore M img td none q < searchScore M img td none (a - c, b - c)) →
      (∃ q ∈ gridPositions (gridSize td img none).1 (gridSize td img none).2,
        q ≠ ((a - c, b - c) : ℤ × ℤ)) →
      Search M img td none none 0 = .found ⟨((a : ℚ), (b : ℚ)), ((c : ℤ) : ℚ)⟩ := by
  intro M img a b c td hc hinit hmax hex
  rw [InitTrackerData] at hinit
  split at hinit
  case isTrue h => exact Option.noConfusion hinit
  case isFalse h =>
  push_neg at h
  obtain ⟨h1, h2, h3, h4⟩ := h
  injection hinit with htd
  have hca : c ≤ a := by
    have hh : ((c : ℤ) : ℚ) ≤ ((a : ℤ) : ℚ) := h1
    exact_mod_cast hh
  have hcb : c ≤ b := by
    have hh : ((c : ℤ) : ℚ) ≤ ((b : ℤ) : ℚ) := h3
    exact_mod_cast hh
  have hacol : a < img.cols - c := by
    have hh : ((a : ℤ) : ℚ) < (img.cols : ℚ) - ((c : ℤ) : ℚ) := h2
    rw [show ((img.cols : ℚ) - ((c : ℤ) : ℚ)) = ((img.cols - c : ℤ) : ℚ) by
      push_cast; ring] at hh
    exact_mod_cast hh
  have hbrow : b < img.rows - c := by
    have hh : ((b : ℤ) : ℚ) < (img.rows : ℚ) - ((c : ℤ) : ℚ) := h4
    rw [show ((img.rows : ℚ) - ((c : ℤ) : ℚ)) = ((img.rows - c : ℤ) : ℚ) by
      push_cast; ring] at hh
    exact_mod_cast hh
  have hcols : td.search_template.cols = 2 * c := by
    rw [← htd]
    show cppInt (2 * ((c : ℤ) : ℚ)) = 2 * c
    rw [show (2 * ((c : ℤ) : ℚ)) = ((2 * c : ℤ) : ℚ) by push_cast; ring,
      cppInt_intCast]
  have hrows : td.search_template.rows = 2 * c := by
    rw [← htd]
    show cppInt (2 * ((c : ℤ) : ℚ)) = 2 * c
    rw [show (2 * ((c : ℤ) : ℚ)) = ((2 * c : ℤ) : ℚ) by push_cast; ring,
      cppInt_intCast]
  have hhw : td.halfW = c := by
    rw [TemplateData.halfW, hcols]
    omega
  have hhh : td.halfH = c := by
    rw [TemplateData.halfH, hrows]
    omega
  have hsmall : ¬ ((extendedRoi td img none).width < td.search_template.cols ∨
      (extendedRoi td img none).height < td.search_template.rows) := by
    show ¬ (img.cols < td.search_template.cols ∨
      img.rows < td.search_template.rows)
    rw [hcols, hrows]
    omega
  have hgw : (gridSize td img none).1 = img.cols - 2 * c + 1 := by
    show img.cols - td.search_template.cols + 1 = _
    rw [hcols]
  have hgh : (gridSize td img none).2 = img.rows - 2 * c + 1 := by
    show img.rows - td.search_template.rows + 1 = _
    rw [hrows]
  have hmem : ((a - c, b - c) : ℤ × ℤ) ∈
      gridPositions (gridSize td img none).1 (gridSize td img none).2 := by
    rw [mem_gridPositions, hgw, hgh]
    refine ⟨by omega, by omega, by omega, by omega⟩
  obtain ⟨mn, hmm, hminle⟩ := minMaxOf_max_unique (searchScore M img td none)
    (a - c, b - c) _ hmem hmax
  have hsp : searchPositions td img none none =
      gridPositions (gridSize td img none).1 (gridSize td img none).2 := rfl
  rw [Search_eq_core M img td none none 0 hsmall rfl, hsp, hmm]
  obtain ⟨q, hq, hqne⟩ := hex
  have hvalue : ¬ (searchScore M img td none (a - c, b - c) - mn.2 ≤ 0) := by
    have hlt := hmax q hq hqne
    have hle := hminle q hq
    push_neg
    linarith
  change (if searchScore M img td none (a - c, b - c) - mn.2 ≤ 0
      then SearchResult.notFound
      else SearchResult.found (markOf td (extendedRoi td img none) (a - c, b - c)))
      = SearchResult.found ⟨((a : ℚ), (b : ℚ)), ((c : ℤ) : ℚ)⟩
  rw [if_neg hvalue]
  show SearchResult.found
      ⟨(((a - c + td.halfW + 0 : ℤ) : ℚ), ((b - c + td.halfH + 0 : ℤ) : ℚ)),
        td.radius⟩ = _
  rw [hhw, hhh, show (a - c + c + 0 : ℤ) = a by ring,
    show (b - c + c + 0 : ℤ) = b by ring, show td.radius = ((c : ℤ) : ℚ) by
      rw [← htd]]

/-- Concrete instance of the amended C3 theorem: a 6×6 image with a
distinctive bright pixel so the score map (top-left-pixel matcher) has a
strict unique peak at the template's own position; the round-trip returns
the original mark `(2, 2)` with radius 1 exactly. -/
theorem c3_amended_witness :
    Search pixTL ⟨6, 6, fun i j => if i = 1 ∧ j = 1 then 9 else 0⟩
      ⟨subimage ⟨6, 6, fun i j => if i = 1 ∧ j = 1 then 9 else 0⟩
        (initRoi ⟨(((2 : ℤ) : ℚ), ((2 : ℤ) : ℚ)), ((1 : ℤ) : ℚ)⟩),
        ((1 : ℤ) : ℚ)⟩ none none 0 =
      .found ⟨(((2 : ℤ) : ℚ), ((2 : ℤ) : ℚ)), ((1 : ℤ) : ℚ)⟩ := by
  have hinit : InitTrackerData ⟨6, 6, fun i j => if i = 1 ∧ j = 1 then 9 else 0⟩
      ⟨(((2 : ℤ) : ℚ), ((2 : ℤ) : ℚ)), ((1 : ℤ) : ℚ)⟩ =
      some ⟨subimage ⟨6, 6, fun i j => if i = 1 ∧ j = 1 then 9 else 0⟩
        (initRoi ⟨(((2 : ℤ) : ℚ), ((2 : ℤ) : ℚ)), ((1 : ℤ) : ℚ)⟩),
        ((1 : ℤ) : ℚ)⟩ := by
    rw [InitTrackerData, if_neg]
    push_neg
    norm_num
  have hw2 : (initRoi
      ⟨(((2 : ℤ) : ℚ), ((2 : ℤ) : ℚ)), ((1 : ℤ) : ℚ)⟩).width = 2 := by
    show cppInt (2 * ((1 : ℤ) : ℚ)) = 2
    rw [show (2 * ((1 : ℤ) : ℚ)) = ((2 : ℤ) : ℚ) by push_cast; ring,
      cppInt_intCast]
  have hgrid : gridSize
      ⟨subimage ⟨6, 6, fun i j => if i = 1 ∧ j = 1 then 9 else 0⟩
        (initRoi ⟨(((2 : ℤ) : ℚ), ((2 : ℤ) : ℚ)), ((1 : ℤ) : ℚ)⟩),
        ((1 : ℤ) : ℚ)⟩
      ⟨6, 6, fun i j => if i = 1 ∧ j = 1 then 9 else 0⟩ none = (5, 5) := by
    show ((6 : ℤ) - (initRoi
        ⟨(((2 : ℤ) : ℚ), ((2 : ℤ) : ℚ)), ((1 : ℤ) : ℚ)⟩).width + 1,
      (6 : ℤ) - (initRoi
        ⟨(((2 : ℤ) : ℚ), ((2 : ℤ) : ℚ)), ((1 : ℤ) : ℚ)⟩).height + 1) = (5, 5)
    rw [hw2, show (initRoi
      ⟨(((2 : ℤ) : ℚ), ((2 : ℤ) : ℚ)), ((1 : ℤ) : ℚ)⟩).height = 2 from hw2]
    decide
  exact c3_amended_self_peak pixTL
    ⟨6, 6, fun i j => if i = 1 ∧ j = 1 then 9 else 0⟩ 2 2 1
    ⟨subimage ⟨6, 6, fun i j => if i = 1 ∧ j = 1 then 9 else 0⟩
      (initRoi ⟨(((2 : ℤ) : ℚ), ((2 : ℤ) : ℚ)), ((1 : ℤ) : ℚ)⟩),
      ((1 : ℤ) : ℚ)⟩
    (by norm_num) hinit (by rw [hgrid]; decide) (by rw [hgrid]; decide)

/-! ## Claim C8: sub-region search versus whole-image search -/

/-- Locality transport: the score of a region-restricted search at a
score-map position equals the whole-image score at the corresponding
absolute position (the windows hold the same pixels). -/
lemma searchScore_roi_translate (M : Matcher) (hM : LocalMatcher M)
    (img : QImage) (td : TemplateData) (roi : Option IRect)
    (hc : 1 ≤ td.search_template.cols) (hr : 1 ≤ td.search_template.rows)
    (q : ℤ × ℤ) :
    searchScore M img td roi q =
      searchScore M img td none
        (q.1 + (extendedRoi td img roi).x, q.2 + (extendedRoi td img roi).y) := by
  apply hM _ _ _ _ _ hc hr
  intro i j _ _ _ _
  show img.pix ((extendedRoi td img roi).x + (q.1 + i))
      ((extendedRoi td img roi).y + (q.2 + j)) =
    img.pix (0 + (q.1 + (extendedRoi td img roi).x + i))
      (0 + (q.2 + (extendedRoi td img roi).y + j))
  rw [show (extendedRoi td img roi).x + (q.1 + i) =
      0 + (q.1 + (extendedRoi td img roi).x + i) by ring,
    show (extendedRoi td img roi).y + (q.2 + j) =
      0 + (q.2 + (extendedRoi td img roi).y + j) by ring]

/-- Claim C8 as stated, over every local matcher: if the whole-image search
found a mark and the caller's (un-extended) rectangle contains that mark's
center, then searching restricted to that rectangle returns the same
outcome and the same mark. -/
def C8Statement : Prop :=
  ∀ (M : Matcher), LocalMatcher M →
    ∀ (img : QImage) (td : TemplateData) (r : IRect) (t : ℚ) (mk : Mark),
      Search M img td none none t = .found mk →
      (r.x : ℚ) ≤ mk.center.1 → mk.center.1 < ((r.x + r.width : ℤ) : ℚ) →
      (r.y : ℚ) ≤ mk.center.2 → mk.center.2 < ((r.y + r.height : ℤ) : ℚ) →
      Search M img td (some r) none t = .found mk

/-- Claim C8 is false: the confidence `max − min` is computed over the
searched region only, so restricting the region can raise the minimum and
drop the confidence below the threshold.  In a 6×6 image whose score map
(top-left-pixel matcher) is 9 at `(1,1)`, 0 at `(4,4)` and 8 elsewhere,
with threshold 5 the whole-image search returns the mark at `(2,2)`
(confidence 9), but the sub-region `(0,0,3×3)` — which contains `(2,2)` —
yields confidence `9 − 8 = 1 ≤ 5` and returns not-found. -/
theorem c8_counterexample : ¬ C8Statement := by
  intro h
  have hfound : Search pixTL
      ⟨6, 6, fun i j => if i = 1 ∧ j = 1 then 9
        else if i = 4 ∧ j = 4 then 0 else 8⟩
      ⟨⟨2, 2, fun _ _ => 1⟩, 1⟩ none none 5 =
      .found ⟨(((2 : ℤ) : ℚ), ((2 : ℤ) : ℚ)), 1⟩ := by
    rw [Search_eq_core pixTL
      ⟨6, 6, fun i j => if i = 1 ∧ j = 1 then 9
        else if i = 4 ∧ j = 4 then 0 else 8⟩
      ⟨⟨2, 2, fun _ _ => 1⟩, 1⟩ none none 5 (by decide) rfl]
    rw [show minMaxOf (searchScore pixTL
        ⟨6, 6, fun i j => if i = 1 ∧ j = 1 then 9
          else if i = 4 ∧ j = 4 then 0 else 8⟩
        ⟨⟨2, 2, fun _ _ => 1⟩, 1⟩ none)
        (searchPositions ⟨⟨2, 2, fun _ _ => 1⟩, 1⟩
          ⟨6, 6, fun i j => if i = 1 ∧ j = 1 then 9
            else if i = 4 ∧ j = 4 then 0 else 8⟩ none none) =
        some ((((4 : ℤ), (4 : ℤ)), (0 : ℚ)), (((1 : ℤ), (1 : ℤ)), (9 : ℚ)))
      from by decide]
    change (if (9 : ℚ) - 0 ≤ 5 then SearchResult.notFound
      else SearchResult.found (markOf ⟨⟨2, 2, fun _ _ => 1⟩, 1⟩
        (extendedRoi ⟨⟨2, 2, fun _ _ => 1⟩, 1⟩
          ⟨6, 6, fun i j => if i = 1 ∧ j = 1 then 9
            else if i = 4 ∧ j = 4 then 0 else 8⟩ none)
        ((1 : ℤ), (1 : ℤ)))) = _
    rw [if_neg (by norm_num)]
    decide
  have hnf : Search pixTL
      ⟨6, 6, fun i j => if i = 1 ∧ j = 1 then 9
        else if i = 4 ∧ j = 4 then 0 else 8⟩
      ⟨⟨2, 2, fun _ _ => 1⟩, 1⟩ (some ⟨0, 0, 3, 3⟩) none 5 = .notFound := by
    rw [Search_eq_core pixTL
      ⟨6, 6, fun i j => if i = 1 ∧ j = 1 then 9
        else if i = 4 ∧ j = 4 then 0 else 8⟩
      ⟨⟨2, 2, fun _ _ => 1⟩, 1⟩ (some ⟨0, 0, 3, 3⟩) none 5 (by decide) rfl]
    rw [show minMaxOf (searchScore pixTL
        ⟨6, 6, fun i j => if i = 1 ∧ j = 1 then 9
          else if i = 4 ∧ j = 4 then 0 else 8⟩
        ⟨⟨2, 2, fun _ _ => 1⟩, 1⟩ (some ⟨0, 0, 3, 3⟩))
        (searchPositions ⟨⟨2, 2, fun _ _ => 1⟩, 1⟩
          ⟨6, 6, fun i j => if i = 1 ∧ j = 1 then 9
            else if i = 4 ∧ j = 4 then 0 else 8⟩ (some ⟨0, 0, 3, 3⟩) none) =
        some ((((0 : ℤ), (0 : ℤ)), (8 : ℚ)), (((1 : ℤ), (1 : ℤ)), (9 : ℚ)))
      from by decide]
    change (if (9 : ℚ) - 8 ≤ 5 then SearchResult.notFound
      else SearchResult.found _) = _
    rw [if_pos (by norm_num)]
  have h2 := h pixTL localMatcher_pixTL
    ⟨6, 6, fun i j => if i = 1 ∧ j = 1 then 9
      else if i = 4 ∧ j = 4 then 0 else 8⟩
    ⟨⟨2, 2, fun _ _ => 1⟩, 1⟩ ⟨0, 0, 3, 3⟩ 5
    ⟨(((2 : ℤ) : ℚ), ((2 : ℤ) : ℚ)), 1⟩ hfound
    (by norm_num) (by norm_num) (by norm_num) (by norm_num)
  rw [hnf] at h2
  exact SearchResult.noConfusion h2

/-- Amended claim C8: PROVIDED the whole-image score map has its strict
unique maximum at `pstar`, the sub-region's score map (which by locality is
the restriction of the whole-image one) also peaks uniquely at the
corresponding position, and BOTH confidences exceed the threshold (the
sub-region min can differ from the whole-image min), the sub-region search
returns exactly the same Mark as the whole-image search. -/
theorem c8_amended_region :
    ∀ (M : Matcher) (img : QImage) (td : TemplateData) (r : IRect) (t : ℚ)
      (E : IRect) (pstar : ℤ × ℤ),
      LocalMatcher M →
      1 ≤ td.search_template.cols → 1 ≤ td.search_template.rows →
      extendedRoi td img (some r) = E →
      ¬ ((imageRect img).width < td.search_template.cols ∨
         (imageRect img).height < td.search_template.rows) →
      ¬ (E.width < td.search_template.cols ∨
         E.height < td.search_template.rows) →
      pstar ∈ gridPositions (gridSize td img none).1 (gridSize td img none).2 →
      (∀ q ∈ gridPositions (gridSize td img none).1 (gridSize td img none).2,
        q ≠ pstar →
        searchScore M img td none q < searchScore M img td none pstar) →
      (∃ q ∈ gridPositions (gridSize td img none).1 (gridSize td img none).2,
        searchScore M img td none q < searchScore M img td none pstar - t) →
      ((pstar.1 - E.x, pstar.2 - E.y) : ℤ × ℤ) ∈
        gridPositions (E.width - td.search_template.cols + 1)
          (E.height - td.search_template.rows + 1) →
      (∀ q ∈ gridPositions (E.width - td.search_template.cols + 1)
          (E.height - td.search_template.rows + 1),
        q ≠ ((pstar.1 - E.x, pstar.2 - E.y) : ℤ × ℤ) →
        searchScore M img td none (q.1 + E.x, q.2 + E.y) <
          searchScore M img td none pstar) →
      (∃ q ∈ gridPositions (E.width - td.search_template.cols + 1)
          (E.height - td.search_template.rows + 1),
        searchScore M img td none (q.1 + E.x, q.2 + E.y) <
          searchScore M img td none pstar - t) →
      Search M img td none none t = .found (markOf td (imageRect img) pstar) ∧
      Search M img td (some r) none t =
        .found (markOf td (imageRect img) pstar) := by
  intro M img td r t E pstar hM hc hr hE hsmallN hsmallR hmemN hmaxN hvalN
    hmemR hmaxR hvalR
  constructor
  · obtain ⟨mn, hmmN, hminleN⟩ :=
      minMaxOf_max_unique (searchScore M img td none) pstar _ hmemN hmaxN
    rw [Search_eq_core M img td none none t hsmallN rfl,
      show searchPositions td img none none =
        gridPositions (gridSize td img none).1 (gridSize td img none).2
        from rfl,
      hmmN]
    change (if searchScore M img td none pstar - mn.2 ≤ t
        then SearchResult.notFound
        else SearchResult.found (markOf td (extendedRoi td img none) pstar)) = _
    rw [if_neg ?hval]
    case hval =>
      obtain ⟨q, hq, hqlt⟩ := hvalN
      have hle := hminleN q hq
      push_neg
      linarith
    rfl
  · have htrans : ∀ q, searchScore M img td (some r) q =
        searchScore M img td none (q.1 + E.x, q.2 + E.y) := by
      intro q
      rw [searchScore_roi_translate M hM img td (some r) hc hr q, hE]
    have hps2 : searchScore M img td (some r) (pstar.1 - E.x, pstar.2 - E.y) =
        searchScore M img td none pstar := by
      rw [htrans]
      rw [show ((pstar.1 - E.x + E.x, pstar.2 - E.y + E.y) : ℤ × ℤ) = pstar by
        obtain ⟨p1, p2⟩ := pstar
        rw [Prod.mk.injEq]
        constructor <;> ring]
    have hmaxR2 : ∀ q ∈ gridPositions (E.width - td.search_template.cols + 1)
        (E.height - td.search_template.rows + 1),
        q ≠ ((pstar.1 - E.x, pstar.2 - E.y) : ℤ × ℤ) →
        searchScore M img td (some r) q <
          searchScore M img td (some r) (pstar.1 - E.x, pstar.2 - E.y) := by
      intro q hq hne
      rw [htrans q, hps2]
      exact hmaxR q hq hne
    obtain ⟨mn2, hmm2, hminle2⟩ :=
      minMaxOf_max_unique (searchScore M img td (some r))
        (pstar.1 - E.x, pstar.2 - E.y) _ hmemR hmaxR2
    have hsmallR2 : ¬ ((extendedRoi td img (some r)).width <
        td.search_template.cols ∨
        (extendedRoi td img (some r)).height < td.search_template.rows) := by
      rw [hE]
      exact hsmallR
    have hsp2 : searchPositions td img (some r) none =
        gridPositions (E.width - td.search_template.cols + 1)
          (E.height - td.search_template.rows + 1) := by
      rw [show searchPositions td img (some r) none =
        gridPositions ((extendedRoi td img (some r)).width -
            td.search_template.cols + 1)
          ((extendedRoi td img (some r)).height -
            td.search_template.rows + 1) from rfl, hE]
    rw [Search_eq_core M img td (some r) none t hsmallR2 rfl, hsp2, hmm2]
    change (if searchScore M img td (some r) (pstar.1 - E.x, pstar.2 - E.y) -
        mn2.2 ≤ t then SearchResult.notFound
        else SearchResult.found (markOf td (extendedRoi td img (some r))
          (pstar.1 - E.x, pstar.2 - E.y))) = _
    rw [if_neg ?hval2]
    case hval2 =>
      obtain ⟨q, hq, hqlt⟩ := hvalR
      have hle := hminle2 q hq
      rw [htrans q] at hle
      rw [hps2]
      push_neg
      linarith
    rw [hE]
    show SearchResult.found
      ⟨(((pstar.1 - E.x + td.halfW + E.x : ℤ) : ℚ),
        ((pstar.2 - E.y + td.halfH + E.y : ℤ) : ℚ)), td.radius⟩ = _
    rw [show (pstar.1 - E.x + td.halfW + E.x : ℤ) =
        (pstar.1 + td.halfW + 0 : ℤ) by ring,
      show (pstar.2 - E.y + td.halfH + E.y : ℤ) =
        (pstar.2 + td.halfH + 0 : ℤ) by ring]
    rfl

/-- Concrete instance of the amended C8 theorem: a 6×6 image whose score
map peaks uniquely (value 9) at position `(2,2)`, with a 3×3 sub-region at
`(2,2)` containing the match; both searches return the identical mark. -/
theorem c8_amended_witness :
    Search pixTL ⟨6, 6, fun i j => if i = 2 ∧ j = 2 then 9
        else if i = 0 ∧ j = 0 then 0 else 1⟩
      ⟨⟨2, 2, fun _ _ => 1⟩, 1⟩ none none 1 =
      .found (markOf ⟨⟨2, 2, fun _ _ => 1⟩, 1⟩
        (imageRect ⟨6, 6, fun i j => if i = 2 ∧ j = 2 then 9
          else if i = 0 ∧ j = 0 then 0 else 1⟩) ((2 : ℤ), (2 : ℤ))) ∧
    Search pixTL ⟨6, 6, fun i j => if i = 2 ∧ j = 2 then 9
        else if i = 0 ∧ j = 0 then 0 else 1⟩
      ⟨⟨2, 2, fun _ _ => 1⟩, 1⟩ (some ⟨2, 2, 3, 3⟩) none 1 =
      .found (markOf ⟨⟨2, 2, fun _ _ => 1⟩, 1⟩
        (imageRect ⟨6, 6, fun i j => if i = 2 ∧ j = 2 then 9
          else if i = 0 ∧ j = 0 then 0 else 1⟩) ((2 : ℤ), (2 : ℤ))) := by
  refine c8_amended_region pixTL
    ⟨6, 6, fun i j => if i = 2 ∧ j = 2 then 9
      else if i = 0 ∧ j = 0 then 0 else 1⟩
    ⟨⟨2, 2, fun _ _ => 1⟩, 1⟩ ⟨2, 2, 3, 3⟩ 1 ⟨1, 1, 5, 5⟩ ((2 : ℤ), (2 : ℤ))
    localMatcher_pixTL (by decide) (by decide) (by decide) (by decide)
    (by decide) (by decide) (by decide) ?_ (by decide) (by decide) ?_
  · refine ⟨((0 : ℤ), (0 : ℤ)), by decide, ?_⟩
    rw [show searchScore pixTL ⟨6, 6, fun i j => if i = 2 ∧ j = 2 then 9
        else if i = 0 ∧ j = 0 then 0 else 1⟩
      ⟨⟨2, 2, fun _ _ => 1⟩, 1⟩ none ((0 : ℤ), (0 : ℤ)) = (0 : ℚ) from rfl,
      show searchScore pixTL ⟨6, 6, fun i j => if i = 2 ∧ j = 2 then 9
        else if i = 0 ∧ j = 0 then 0 else 1⟩
      ⟨⟨2, 2, fun _ _ => 1⟩, 1⟩ none ((2 : ℤ), (2 : ℤ)) = (9 : ℚ) from rfl]
    norm_num
  · refine ⟨((0 : ℤ), (0 : ℤ)), by decide, ?_⟩
    rw [show searchScore pixTL ⟨6, 6, fun i j => if i = 2 ∧ j = 2 then 9
        else if i = 0 ∧ j = 0 then 0 else 1⟩
      ⟨⟨2, 2, fun _ _ => 1⟩, 1⟩ none
        (((0 : ℤ) + (1 : ℤ), (0 : ℤ) + (1 : ℤ)) : ℤ × ℤ) = (1 : ℚ) from rfl,
      show searchScore pixTL ⟨6, 6, fun i j => if i = 2 ∧ j = 2 then 9
        else if i = 0 ∧ j = 0 then 0 else 1⟩
      ⟨⟨2, 2, fun _ _ => 1⟩, 1⟩ none ((2 : ℤ), (2 : ℤ)) = (9 : ℚ) from rfl]
    norm_num

end DoveEye


